import Mathlib

/-!
Verification of the chained hash-table key-value store in simple_db.c

Shallow embedding of `src/src/core/simple_db.c`.  Keys and values are C
strings, modelled as lists of byte values (`List Nat`); the terminating NUL
is not represented.  Machine `uint64_t` arithmetic is modelled as `Nat`
with explicit reduction modulo `2 ^ 64`.  `size_t` quantities (capacity,
count) are `Nat`.

Allocation failure is modelled by an explicit boolean oracle on the
operations where a claim depends on it (`rehashA`, `db_setA`, `db_keysA`);
the oracle value `true` means every allocation succeeds.  A C function that
can fail returns `Option`.

The load-factor test in `db_set` is
`(double)(db->count + 1) / (double)db->capacity > 0.75` (simple_db.c:140).
Since capacity is a power of two and counts stay far below `2 ^ 53`, the
division is exact in IEEE double precision and the comparison is exactly
the rational comparison `(count + 1) / capacity > 3 / 4`, which we embed
as `capacity * 3 < (count + 1) * 4`.
-/

/-- Modulus of `uint64_t` arithmetic. -/
def U64 : Nat := 2 ^ 64

/-- One chain node (struct Entry, simple_db.c:25-29).  The `next` pointer is
represented by the position in the chain list. -/
structure Entry where
  key : List Nat
  value : List Nat
deriving DecidableEq, Repr

/-- The table (struct SimpleDB, simple_db.c:31-35).  `buckets` is the array
of chain heads; each chain is a list, head first.  The C invariant
`buckets` has length `capacity` is not baked into the type; it is carried
as a hypothesis where needed. -/
structure SimpleDB where
  buckets : List (List Entry)
  capacity : Nat
  count : Nat
deriving DecidableEq, Repr

/-- Statistics record (DBStats, simple_db.h:24-29). -/
structure DBStats where
  total_entries : Nat
  total_collisions : Nat
  max_chain_length : Nat
  used_buckets : Nat
deriving DecidableEq, Repr

/-- FNV-1a 64-bit hash (fnv1a, simple_db.c:41-50): start from the offset
basis, and for each byte XOR it in then multiply by the prime, with
`uint64_t` wraparound. -/
def fnv1a (s : List Nat) : Nat :=
  s.foldl (fun h b => ((h ^^^ b) * 1099511628211) % U64) 14695981039346656037

/-- Bucket selection (bucket_index, simple_db.c:52-55): `hash & (capacity - 1)`. -/
def bucket_index (hash capacity : Nat) : Nat :=
  hash &&& (capacity - 1)

/-- Function db_create (simple_db.c:110-121) on the successful-allocation path:
capacity 64, count 0, all chain heads empty. -/
def db_create : SimpleDB :=
  { buckets := List.replicate 64 [], capacity := 64, count := 0 }

/-- One step of the rehash loop (simple_db.c:93-95): relink entry `e` at the
head of the chain for its bucket index under the new capacity.  The new
capacity is the length of the bucket array being built. -/
def placeEntry (bs : List (List Entry)) (e : Entry) : List (List Entry) :=
  let idx := bucket_index (fnv1a e.key) bs.length
  bs.set idx (e :: bs.getD idx [])

/-- Function rehash (simple_db.c:84-104) on the successful-allocation path: every
entry, taken across old buckets in ascending index order and within each
bucket head-to-tail, is relinked at the head of its new chain in a fresh
array of `new_cap` empty buckets.  Count is untouched. -/
def rehashF (db : SimpleDB) (new_cap : Nat) : SimpleDB :=
  { buckets := db.buckets.flatten.foldl placeEntry (List.replicate new_cap []),
    capacity := new_cap,
    count := db.count }

/-- Function rehash with its allocation oracle: if the `calloc` of the new bucket
array fails (simple_db.c:86-87) the function returns false having mutated
nothing, modelled as `none`. -/
def rehashA (db : SimpleDB) (new_cap : Nat) (allocOk : Bool) : Option SimpleDB :=
  if allocOk then some (rehashF db new_cap) else none

/-- The update scan of `db_set` (simple_db.c:149-158): walk the chain; at
the first entry whose key equals `key`, replace its value (same key
storage, same chain position) and stop.  `none` means no entry matched. -/
def updateChain (chain : List Entry) (key value : List Nat) : Option (List Entry) :=
  match chain with
  | [] => none
  | e :: rest =>
      if e.key = key then some ({ key := e.key, value := value } :: rest)
      else (updateChain rest key value).map (fun c => e :: c)

/-- The post-resize body of `db_set` (simple_db.c:144-173): compute the
bucket index, try an in-place update, otherwise link a new entry at the
head of the chain and increment count. -/
def db_insertStep (db : SimpleDB) (key value : List Nat) : SimpleDB :=
  match updateChain (db.buckets.getD (bucket_index (fnv1a key) db.capacity) []) key value with
  | some chain2 =>
      { buckets := db.buckets.set (bucket_index (fnv1a key) db.capacity) chain2,
        capacity := db.capacity, count := db.count }
  | none =>
      { buckets := db.buckets.set (bucket_index (fnv1a key) db.capacity)
          ({ key := key, value := value } ::
            db.buckets.getD (bucket_index (fnv1a key) db.capacity) []),
        capacity := db.capacity, count := db.count + 1 }

/-- The load-factor pre-check of `db_set` (simple_db.c:140), embedded
exactly (see header comment): `(count + 1) / capacity > 0.75`. -/
def loadTrigger (db : SimpleDB) : Bool :=
  db.capacity * 3 < (db.count + 1) * 4

/-- Function db_set (simple_db.c:135-174) with the rehash-allocation oracle.  The
duplication/node allocations inside the body are taken to succeed; `none`
arises exactly when the pre-check fires and the rehash `calloc` fails, in
which case the call returns false with the table unmutated. -/
def db_setA (db : SimpleDB) (key value : List Nat) (allocOk : Bool) : Option SimpleDB :=
  if loadTrigger db then
    match rehashA db (db.capacity * 2) allocOk with
    | none => none
    | some db2 => some (db_insertStep db2 key value)
  else
    some (db_insertStep db key value)

/-- Function db_set on the all-allocations-succeed path, as a total function. -/
def db_set (db : SimpleDB) (key value : List Nat) : SimpleDB :=
  (db_setA db key value true).getD db

/-- The lookup scan shared by `db_get` (simple_db.c:183-187): first entry
with an equal key wins. -/
def findInChain (chain : List Entry) (key : List Nat) : Option (List Nat) :=
  match chain with
  | [] => none
  | e :: rest => if e.key = key then some e.value else findInChain rest key

/-- Function db_get (simple_db.c:176-188): walk the chain of the key's bucket;
`none` models the NULL not-found result. -/
def db_get (db : SimpleDB) (key : List Nat) : Option (List Nat) :=
  findInChain (db.buckets.getD (bucket_index (fnv1a key) db.capacity) []) key

/-- Function db_exists (simple_db.c:213-216): `db_get(db, key) != NULL`. -/
def db_exists (db : SimpleDB) (key : List Nat) : Bool :=
  (db_get db key).isSome

/-- The unlink scan of `db_delete` (simple_db.c:198-209): remove the first
entry with an equal key; `none` means no match. -/
def deleteChain (chain : List Entry) (key : List Nat) : Option (List Entry) :=
  match chain with
  | [] => none
  | e :: rest =>
      if e.key = key then some rest
      else (deleteChain rest key).map (fun c => e :: c)

/-- Function db_delete (simple_db.c:190-211): returns whether a match was found
together with the resulting table; count decrements exactly on a match and
the capacity is never touched. -/
def db_delete (db : SimpleDB) (key : List Nat) : Bool × SimpleDB :=
  match deleteChain (db.buckets.getD (bucket_index (fnv1a key) db.capacity) []) key with
  | some chain2 =>
      (true,
       { buckets := db.buckets.set (bucket_index (fnv1a key) db.capacity) chain2,
         capacity := db.capacity, count := db.count - 1 })
  | none => (false, db)

/-- Function db_count (simple_db.c:222-225) for a live table. -/
def db_count (db : SimpleDB) : Nat := db.count

/-- The enumeration loop of `db_keys` (simple_db.c:246-259): the outer loop
visits buckets in ascending index while `pos < count`; the inner loop
copies the whole chain head-to-tail unconditionally.  Returns the collected
keys and the final `pos`. -/
def keysLoop (buckets : List (List Entry)) (cnt pos : Nat) (acc : List (List Nat)) :
    List (List Nat) × Nat :=
  match buckets with
  | [] => (acc, pos)
  | chain :: rest =>
      if pos < cnt then
        keysLoop rest cnt (pos + chain.length) (acc ++ chain.map Entry.key)
      else (acc, pos)

/-- Function db_keys (simple_db.c:235-263) with an allocation oracle covering the
array `malloc` and every key `dup_str`.  The observable result is the pair
(returned pointer, `*out_count`): `none` models a NULL return.  When
`count == 0` the function returns NULL with `*out_count == 0` before any
allocation; on any allocation failure it frees all partial copies and
returns NULL, with `*out_count` still 0. -/
def db_keysA (db : SimpleDB) (allocOk : Bool) : Option (List (List Nat)) × Nat :=
  if db.count = 0 then (none, 0)
  else if allocOk then
    let r := keysLoop db.buckets db.count 0 []
    (some r.1, r.2)
  else (none, 0)

/-- The per-bucket accumulation of `db_stats` (simple_db.c:272-286): empty
buckets are skipped; otherwise used_buckets increments, chain length above
one adds to total_collisions, and max_chain_length takes the maximum. -/
def statsStep (s : DBStats) (chain : List Entry) : DBStats :=
  if chain.isEmpty then s
  else
    let c := chain.length
    { total_entries := s.total_entries,
      total_collisions := s.total_collisions + (if 1 < c then c - 1 else 0),
      max_chain_length := if s.max_chain_length < c then c else s.max_chain_length,
      used_buckets := s.used_buckets + 1 }

/-- Function db_stats (simple_db.c:265-289): fold `statsStep` over the buckets in
ascending index order, starting from all-zero with `total_entries` set to
the stored count.  The table is a value here, so non-mutation is by
construction. -/
def db_stats (db : SimpleDB) : DBStats :=
  db.buckets.foldl statsStep
    { total_entries := db.count, total_collisions := 0,
      max_chain_length := 0, used_buckets := 0 }

/-! ## Basic lemmas about indices and lists -/

/-- A bucket index is always within a positive capacity, because
`hash &&& (capacity - 1) ≤ capacity - 1`. -/
theorem bucket_index_lt (hash capacity : Nat) (h : 0 < capacity) :
    bucket_index hash capacity < capacity :=
  lt_of_le_of_lt Nat.and_le_right (Nat.sub_lt h Nat.one_pos)

/-- Reading back the slot just written. -/
theorem getD_set_self {α : Type} (l : List α) (i : Nat) (a d : α) (h : i < l.length) :
    (l.set i a).getD i d = a := by
  rw [List.getD_eq_getElem?_getD, List.getElem?_set_self h]
  rfl

/-- Writing one slot leaves every other slot unchanged. -/
theorem getD_set_ne {α : Type} (l : List α) (i j : Nat) (a d : α) (h : i ≠ j) :
    (l.set i a).getD j d = l.getD j d := by
  rw [List.getD_eq_getElem?_getD, List.getElem?_set_ne h, ← List.getD_eq_getElem?_getD]

/-- An in-bounds `getD` is a member of the list. -/
theorem getD_mem {α : Type} (l : List α) (i : Nat) (d : α) (h : i < l.length) :
    l.getD i d ∈ l := by
  rw [List.getD_eq_getElem l d h]
  exact List.getElem_mem h

/-! ## Lemmas about the chain scans -/

/-- The lookup scan fails exactly when no entry of the chain carries the key. -/
theorem findInChain_eq_none_iff (chain : List Entry) (k : List Nat) :
    findInChain chain k = none ↔ k ∉ chain.map Entry.key := by
  induction chain with
  | nil => simp [findInChain]
  | cons e rest ih =>
      by_cases hk : e.key = k
      · simp [findInChain, hk]
      · have hk2 : ¬ k = e.key := fun h => hk h.symm
        simp only [findInChain, if_neg hk, ih, List.map_cons, List.mem_cons]
        tauto

/-- The update scan fails exactly when the lookup scan fails. -/
theorem updateChain_eq_none_iff (chain : List Entry) (k v : List Nat) :
    updateChain chain k v = none ↔ findInChain chain k = none := by
  induction chain with
  | nil => simp [updateChain, findInChain]
  | cons e rest ih =>
      by_cases hk : e.key = k
      · simp [updateChain, findInChain, hk]
      · simp [updateChain, findInChain, hk, ih]

/-- The unlink scan fails exactly when the lookup scan fails. -/
theorem deleteChain_eq_none_iff (chain : List Entry) (k : List Nat) :
    deleteChain chain k = none ↔ findInChain chain k = none := by
  induction chain with
  | nil => simp [deleteChain, findInChain]
  | cons e rest ih =>
      by_cases hk : e.key = k
      · simp [deleteChain, findInChain, hk]
      · simp [deleteChain, findInChain, hk, ih]

/-- After a successful update scan, the lookup scan returns the new value:
the replaced entry sits at the first position whose key matches. -/
theorem findInChain_updateChain (chain chain2 : List Entry) (k v : List Nat)
    (h : updateChain chain k v = some chain2) : findInChain chain2 k = some v := by
  induction chain generalizing chain2 with
  | nil => simp [updateChain] at h
  | cons e rest ih =>
      by_cases hk : e.key = k
      · simp only [updateChain, if_pos hk, Option.some.injEq] at h
        subst h
        simp [findInChain, hk]
      · simp only [updateChain, if_neg hk, Option.map_eq_some'] at h
        obtain ⟨c, hc, rfl⟩ := h
        simp [findInChain, hk, ih c hc]

/-- The update scan preserves the keys of the chain, in order. -/
theorem updateChain_keys (chain chain2 : List Entry) (k v : List Nat)
    (h : updateChain chain k v = some chain2) :
    chain2.map Entry.key = chain.map Entry.key := by
  induction chain generalizing chain2 with
  | nil => simp [updateChain] at h
  | cons e rest ih =>
      by_cases hk : e.key = k
      · simp only [updateChain, if_pos hk, Option.some.injEq] at h
        subst h
        simp
      · simp only [updateChain, if_neg hk, Option.map_eq_some'] at h
        obtain ⟨c, hc, rfl⟩ := h
        simp [ih c hc]

/-- The update scan leaves the chain length unchanged. -/
theorem updateChain_length (chain chain2 : List Entry) (k v : List Nat)
    (h : updateChain chain k v = some chain2) : chain2.length = chain.length := by
  have := updateChain_keys chain chain2 k v h
  have h2 : (chain2.map Entry.key).length = (chain.map Entry.key).length := by rw [this]
  simpa using h2

/-- The unlink scan removes exactly one node. -/
theorem deleteChain_length (chain chain2 : List Entry) (k : List Nat)
    (h : deleteChain chain k = some chain2) : chain2.length + 1 = chain.length := by
  induction chain generalizing chain2 with
  | nil => simp [deleteChain] at h
  | cons e rest ih =>
      by_cases hk : e.key = k
      · simp only [deleteChain, if_pos hk, Option.some.injEq] at h
        subst h
        simp
      · simp only [deleteChain, if_neg hk, Option.map_eq_some'] at h
        obtain ⟨c, hc, rfl⟩ := h
        simp [ih c hc]

/-- With pairwise-distinct keys in the chain, the unlink scan removes the
only occurrence, so a subsequent lookup scan fails. -/
theorem findInChain_deleteChain (chain chain2 : List Entry) (k : List Nat)
    (hnd : (chain.map Entry.key).Nodup)
    (h : deleteChain chain k = some chain2) : findInChain chain2 k = none := by
  induction chain generalizing chain2 with
  | nil => simp [deleteChain] at h
  | cons e rest ih =>
      simp only [List.map_cons, List.nodup_cons] at hnd
      by_cases hk : e.key = k
      · simp only [deleteChain, if_pos hk, Option.some.injEq] at h
        subst h
        rw [findInChain_eq_none_iff]
        rw [hk] at hnd
        exact hnd.1
      · simp only [deleteChain, if_neg hk, Option.map_eq_some'] at h
        obtain ⟨c, hc, rfl⟩ := h
        simp [findInChain, hk, ih c hnd.2 hc]

/-! ## Shape lemmas for the table operations -/

/-- Relinking one entry preserves the length of the bucket array. -/
theorem placeEntry_length (bs : List (List Entry)) (e : Entry) :
    (placeEntry bs e).length = bs.length := by
  simp [placeEntry]

/-- The whole rehash loop preserves the length of the bucket array. -/
theorem foldl_placeEntry_length (es : List Entry) (bs : List (List Entry)) :
    (es.foldl placeEntry bs).length = bs.length := by
  induction es generalizing bs with
  | nil => rfl
  | cons e rest ih => rw [List.foldl_cons, ih, placeEntry_length]

/-- Shape of a successful rehash: the new array has exactly the requested
capacity, the stored capacity becomes that value, and the count is kept. -/
theorem rehashF_shape (db : SimpleDB) (new_cap : Nat) :
    (rehashF db new_cap).buckets.length = new_cap ∧
    (rehashF db new_cap).capacity = new_cap ∧
    (rehashF db new_cap).count = db.count :=
  ⟨by simp [rehashF, foldl_placeEntry_length], rfl, rfl⟩

/-- After the insert-or-update body, looking the key up yields the value
just stored. -/
theorem db_get_insertStep (db : SimpleDB) (k v : List Nat)
    (h1 : db.buckets.length = db.capacity) (h2 : 0 < db.capacity) :
    db_get (db_insertStep db k v) k = some v := by
  have hidx : bucket_index (fnv1a k) db.capacity < db.buckets.length := by
    rw [h1]
    exact bucket_index_lt _ _ h2
  cases hu : updateChain (db.buckets.getD (bucket_index (fnv1a k) db.capacity) []) k v with
  | some chain2 =>
      simp only [db_insertStep, hu, db_get]
      rw [getD_set_self _ _ _ _ hidx]
      exact findInChain_updateChain _ _ _ _ hu
  | none =>
      simp only [db_insertStep, hu, db_get]
      rw [getD_set_self _ _ _ _ hidx]
      simp [findInChain]

set_option maxRecDepth 100000

/-- C1: for every table (with its bucket array of the stored capacity), key
k and value v, if db_set succeeds — under any allocation outcome — then an
immediately following db_get on k returns v and db_exists on k returns
true. -/
theorem claim1_set_then_get_exists (db : SimpleDB) (k v : List Nat) (ok : Bool)
    (db2 : SimpleDB) (h1 : db.buckets.length = db.capacity) (h2 : 0 < db.capacity)
    (hs : db_setA db k v ok = some db2) :
    db_get db2 k = some v ∧ db_exists db2 k = true := by
  have hmain : db_get db2 k = some v := by
    by_cases ht : loadTrigger db
    · cases ok with
      | false => simp [db_setA, ht, rehashA] at hs
      | true =>
          simp only [db_setA, ht, rehashA, if_true, Option.some.injEq] at hs
          obtain ⟨hlen, hcap, hcnt⟩ := rehashF_shape db (db.capacity * 2)
          rw [← hs]
          exact db_get_insertStep _ k v (by rw [hlen, hcap])
            (by rw [hcap]; exact Nat.mul_pos h2 (by norm_num))
    · simp [db_setA, ht] at hs
      rw [← hs]
      exact db_get_insertStep db k v h1 h2
  exact ⟨hmain, by simp [db_exists, hmain]⟩

/-- Witness for C1 at a concrete input: a fresh table, key "a", value "1". -/
theorem claim1_witness :
    db_get (db_set db_create [97] [49]) [97] = some [49] ∧
    db_exists (db_set db_create [97] [49]) [97] = true :=
  claim1_set_then_get_exists db_create [97] [49] true (db_set db_create [97] [49])
    rfl (by decide) (by decide)

/-! ## Concrete scenario tables -/

/-- Distinct one-byte keys used in the concrete scenarios. -/
def keyOf (i : Nat) : List Nat := [65 + i]

/-- The table reached from a fresh table by inserting the n distinct keys
keyOf 0 .. keyOf (n-1), each with value the byte string of "1". -/
def dbN (n : Nat) : SimpleDB :=
  (List.range n).foldl (fun d i => db_set d (keyOf i) [49]) db_create

/-- A reachable one-entry table. -/
def oneDB : SimpleDB := db_set db_create [97] [49]

/-- C2 counterexample: the table reached by 48 distinct inserts has count 48
and capacity 64; setting the already-present key keyOf 0 is an update
(count is unchanged), yet doubles the capacity to 128, because the resize
pre-check of db_set (simple_db.c:140) runs before the update/insert
distinction is known. -/
theorem claim2_counterexample :
    db_exists (dbN 48) (keyOf 0) = true ∧
    (dbN 48).capacity = 64 ∧
    (db_set (dbN 48) (keyOf 0) [50]).count = (dbN 48).count ∧
    (db_set (dbN 48) (keyOf 0) [50]).capacity = 128 :=
  ⟨by decide, by decide, by decide, by decide⟩

/-- C2 amended: for a table whose load-factor pre-check does not fire,
setting a present key is a pure update: count and capacity are unchanged,
the value read back is the new one, the key sequence of the target bucket
(key storage and chain positions) is unchanged, and every other bucket is
untouched.  When the pre-check fires, the capacity doubles even on an
update (see the counterexample). -/
theorem claim2_update_frame (db : SimpleDB) (k v2 : List Nat)
    (h1 : db.buckets.length = db.capacity) (h2 : 0 < db.capacity)
    (ht : loadTrigger db = false) (hp : db_exists db k = true) :
    (db_set db k v2).count = db.count ∧
    (db_set db k v2).capacity = db.capacity ∧
    db_get (db_set db k v2) k = some v2 ∧
    ((db_set db k v2).buckets.getD (bucket_index (fnv1a k) db.capacity) []).map Entry.key
      = (db.buckets.getD (bucket_index (fnv1a k) db.capacity) []).map Entry.key ∧
    ∀ j, j ≠ bucket_index (fnv1a k) db.capacity →
      (db_set db k v2).buckets.getD j [] = db.buckets.getD j [] := by
  have hset : db_set db k v2 = db_insertStep db k v2 := by
    simp [db_set, db_setA, ht]
  have hidx : bucket_index (fnv1a k) db.capacity < db.buckets.length := by
    rw [h1]
    exact bucket_index_lt _ _ h2
  have hfind : findInChain (db.buckets.getD (bucket_index (fnv1a k) db.capacity) []) k ≠ none := by
    intro hn
    have hg : db_get db k = none := hn
    rw [db_exists, hg] at hp
    simp at hp
  obtain ⟨chain2, hu⟩ :
      ∃ c, updateChain (db.buckets.getD (bucket_index (fnv1a k) db.capacity) []) k v2 = some c := by
    cases h : updateChain (db.buckets.getD (bucket_index (fnv1a k) db.capacity) []) k v2 with
    | some c => exact ⟨c, rfl⟩
    | none => exact absurd ((updateChain_eq_none_iff _ _ _).mp h) hfind
  refine ⟨?_, ?_, ?_, ?_, ?_⟩
  · rw [hset]
    simp only [db_insertStep, hu]
  · rw [hset]
    simp only [db_insertStep, hu]
  · rw [hset]
    exact db_get_insertStep db k v2 h1 h2
  · simp only [hset, db_insertStep, hu]
    rw [getD_set_self _ _ _ _ hidx]
    exact updateChain_keys _ _ _ _ hu
  · intro j hj
    simp only [hset, db_insertStep, hu]
    exact getD_set_ne _ _ _ _ _ (fun h => hj h.symm)

/-- Witness for the amended C2 at a concrete input: updating the single key
of a reachable one-entry table. -/
theorem claim2_witness :
    (db_set oneDB [97] [50]).count = oneDB.count ∧
    (db_set oneDB [97] [50]).capacity = oneDB.capacity ∧
    db_get (db_set oneDB [97] [50]) [97] = some [50] := by
  have h := claim2_update_frame oneDB [97] [50] (by decide) (by decide) (by decide) (by decide)
  exact ⟨h.1, h.2.1, h.2.2.1⟩

/-- C4: the 48 scenario keys are pairwise distinct; inserting the first 48
into a fresh table leaves capacity 64 with count 48; the 49th distinct
insert doubles capacity to 128 (the 49th table is literally db_set of the
48-entry table) and the 49th key is present afterwards. -/
theorem claim4_resize_at_49 :
    ((List.range 49).map keyOf).Nodup ∧
    (dbN 48).capacity = 64 ∧ (dbN 48).count = 48 ∧
    (dbN 49).capacity = 128 ∧ (dbN 49).count = 49 ∧
    dbN 49 = db_set (dbN 48) (keyOf 48) [49] ∧
    db_exists (dbN 49) (keyOf 48) = true := by
  refine ⟨by decide, by decide, by decide, by decide, by decide, ?_, by decide⟩
  rw [dbN, dbN, List.range_succ, List.foldl_append, List.foldl_cons, List.foldl_nil]

/-- C5: when the calloc of the new bucket array fails, rehash returns
failure having produced no table (no mutation is possible in this pure
embedding, and the C code returns before touching the table); a db_set
whose pre-check fires then propagates the failure, returning none — the
caller keeps the unchanged table. -/
theorem claim5_rehash_alloc_failure (db : SimpleDB) (new_cap : Nat) (k v : List Nat)
    (ht : loadTrigger db = true) :
    rehashA db new_cap false = none ∧ db_setA db k v false = none := by
  refine ⟨rfl, ?_⟩
  simp [db_setA, ht, rehashA]

/-- Witness for C5 at a concrete input: the reachable 48-entry table, whose
pre-check fires on the next db_set. -/
theorem claim5_witness :
    rehashA (dbN 48) 128 false = none ∧ db_setA (dbN 48) (keyOf 48) [49] false = none :=
  claim5_rehash_alloc_failure (dbN 48) 128 (keyOf 48) [49] (by decide)

/-! ## Load-factor invariant machinery -/

/-- The insert-or-update body increments count by at most one and never
changes the capacity. -/
theorem db_insertStep_count_le (db : SimpleDB) (k v : List Nat) :
    (db_insertStep db k v).count ≤ db.count + 1 ∧
    (db_insertStep db k v).capacity = db.capacity := by
  cases hu : updateChain (db.buckets.getD (bucket_index (fnv1a k) db.capacity) []) k v with
  | some c =>
      simp only [db_insertStep, hu]
      exact ⟨Nat.le_succ _, trivial⟩
  | none =>
      simp only [db_insertStep, hu]
      exact ⟨le_refl _, trivial⟩

/-- Case analysis of the total db_set: a firing pre-check rehashes to twice
the capacity first, otherwise the body runs on the table as is. -/
theorem db_set_eq (db : SimpleDB) (k v : List Nat) :
    db_set db k v =
      if loadTrigger db then db_insertStep (rehashF db (db.capacity * 2)) k v
      else db_insertStep db k v := by
  by_cases ht : loadTrigger db <;> simp [db_set, db_setA, rehashA, ht]

/-- Tables reached from db_create by a sequence of successful db_set calls. -/
def applySets (ops : List (List Nat × List Nat)) : SimpleDB :=
  ops.foldl (fun d kv => db_set d kv.1 kv.2) db_create

/-- The invariant of C3: the load factor is at most 3/4 and the capacity is
64 times a power of two. -/
def GoodCC (db : SimpleDB) : Prop :=
  db.count * 4 ≤ db.capacity * 3 ∧ ∃ j, db.capacity = 64 * 2 ^ j

/-- A successful db_set preserves the C3 invariant. -/
theorem goodCC_preserved (db : SimpleDB) (k v : List Nat) (h : GoodCC db) :
    GoodCC (db_set db k v) := by
  obtain ⟨hload, j, hcap⟩ := h
  have hge : 64 ≤ db.capacity := by
    rw [hcap]
    calc 64 = 64 * 1 := by ring
    _ ≤ 64 * 2 ^ j := Nat.mul_le_mul_left _ Nat.one_le_two_pow
  rw [db_set_eq]
  by_cases ht : loadTrigger db
  · rw [if_pos ht]
    obtain ⟨hc_le, hc_cap⟩ := db_insertStep_count_le (rehashF db (db.capacity * 2)) k v
    have h1 : (db_insertStep (rehashF db (db.capacity * 2)) k v).count ≤ db.count + 1 := hc_le
    have h2 : (db_insertStep (rehashF db (db.capacity * 2)) k v).capacity
        = db.capacity * 2 := hc_cap
    constructor
    · rw [h2]
      omega
    · exact ⟨j + 1, by rw [h2, hcap]; ring⟩
  · rw [if_neg ht]
    obtain ⟨hc_le, hc_cap⟩ := db_insertStep_count_le db k v
    have hnt : (db.count + 1) * 4 ≤ db.capacity * 3 := by
      simp [loadTrigger] at ht
      omega
    constructor
    · rw [hc_cap]
      omega
    · exact ⟨j, by rw [hc_cap, hcap]⟩

/-- C3: every table reached from db_create by any sequence of successful
db_set calls has load factor at most 0.75 (stated as the exact rational
inequality count · 4 ≤ capacity · 3) and capacity of the shape 64 · 2 ^ j —
a power of two at least 64, obtained from the initial 64 only by
doubling. -/
theorem claim3_load_invariant (ops : List (List Nat × List Nat)) :
    (applySets ops).count * 4 ≤ (applySets ops).capacity * 3 ∧
    ∃ j, (applySets ops).capacity = 64 * 2 ^ j := by
  have main : ∀ (l : List (List Nat × List Nat)) (db : SimpleDB), GoodCC db →
      GoodCC (l.foldl (fun d kv => db_set d kv.1 kv.2) db) := by
    intro l
    induction l with
    | nil => exact fun db h => h
    | cons p rest ih => exact fun db h => ih _ (goodCC_preserved db p.1 p.2 h)
  exact main ops db_create ⟨by norm_num [db_create], 0, by norm_num [db_create]⟩

/-! ## Deletion -/

/-- C6: deleting a present key returns true, makes a subsequent lookup of
that key fail, and decrements count by exactly one; deleting an absent key
returns false with the table unchanged; no delete ever changes the
capacity. -/
theorem claim6_delete (db : SimpleDB) (k : List Nat)
    (h1 : db.buckets.length = db.capacity) (h2 : 0 < db.capacity)
    (h3 : ∀ chain ∈ db.buckets, (chain.map Entry.key).Nodup)
    (h4 : (db.buckets.map List.length).sum = db.count) :
    (db_exists db k = true →
      (db_delete db k).1 = true ∧
      db_get (db_delete db k).2 k = none ∧
      (db_delete db k).2.count + 1 = db.count) ∧
    (db_exists db k = false → db_delete db k = (false, db)) ∧
    (db_delete db k).2.capacity = db.capacity ∧
    (db_delete db k).2.buckets.length = db.buckets.length := by
  have hidx : bucket_index (fnv1a k) db.capacity < db.buckets.length := by
    rw [h1]
    exact bucket_index_lt _ _ h2
  have hmem : db.buckets.getD (bucket_index (fnv1a k) db.capacity) [] ∈ db.buckets :=
    getD_mem _ _ _ hidx
  cases hd : deleteChain (db.buckets.getD (bucket_index (fnv1a k) db.capacity) []) k with
  | some c =>
      have hne : db.buckets.getD (bucket_index (fnv1a k) db.capacity) [] ≠ [] := by
        intro hnil
        rw [hnil] at hd
        simp [deleteChain] at hd
      have hlen : 1 ≤ (db.buckets.getD (bucket_index (fnv1a k) db.capacity) []).length :=
        Nat.one_le_iff_ne_zero.mpr (by simpa using hne)
      have hsum : (db.buckets.getD (bucket_index (fnv1a k) db.capacity) []).length
          ≤ (db.buckets.map List.length).sum :=
        List.single_le_sum (fun x _ => Nat.zero_le x) _ (List.mem_map_of_mem _ hmem)
      refine ⟨fun _ => ⟨?_, ?_, ?_⟩, fun hp => ?_, ?_, ?_⟩
      · simp only [db_delete, hd]
      · simp only [db_delete, hd, db_get]
        rw [getD_set_self _ _ _ _ hidx]
        exact findInChain_deleteChain _ c k (h3 _ hmem) hd
      · simp only [db_delete, hd]
        omega
      · exfalso
        cases hfc : findInChain (db.buckets.getD (bucket_index (fnv1a k) db.capacity) []) k with
        | none =>
            rw [(deleteChain_eq_none_iff _ _).mpr hfc] at hd
            exact Option.noConfusion hd
        | some val =>
            have hg : db_get db k = some val := hfc
            rw [db_exists, hg] at hp
            simp at hp
      · simp only [db_delete, hd]
      · simp only [db_delete, hd]
        exact List.length_set db.buckets _ _
  | none =>
      have hfind : findInChain (db.buckets.getD (bucket_index (fnv1a k) db.capacity) []) k
          = none := (deleteChain_eq_none_iff _ _).mp hd
      have hg : db_get db k = none := hfind
      refine ⟨fun hp => ?_, fun _ => ?_, ?_, ?_⟩
      · rw [db_exists, hg] at hp
        simp at hp
      · simp only [db_delete, hd]
      · simp only [db_delete, hd]
      · simp only [db_delete, hd]

/-- Witness for C6 at a concrete input: the reachable one-entry table and
its single present key. -/
theorem claim6_witness :
    ((db_delete oneDB [97]).1 = true ∧
     db_get (db_delete oneDB [97]).2 [97] = none ∧
     (db_delete oneDB [97]).2.count + 1 = oneDB.count) ∧
    (db_delete oneDB [97]).2.capacity = oneDB.capacity ∧
    (db_delete oneDB [97]).2.buckets.length = oneDB.buckets.length := by
  have h := claim6_delete oneDB [97] (by decide) (by decide) (by decide) (by decide)
  exact ⟨h.1 (by decide), h.2.2⟩

/-! ## Enumeration -/

/-- The keys of every entry of the table, read across buckets in ascending
index order and within each bucket head-to-tail — the enumeration order of
db_keys. -/
def allKeys (db : SimpleDB) : List (List Nat) :=
  (db.buckets.map (List.map Entry.key)).flatten

/-- A bucket array whose chains have total length zero enumerates no keys. -/
theorem flatten_keys_nil (bs : List (List Entry)) (h : (bs.map List.length).sum = 0) :
    (bs.map (List.map Entry.key)).flatten = [] := by
  induction bs with
  | nil => rfl
  | cons chain rest ih =>
      simp only [List.map_cons, List.sum_cons] at h
      have h1 : chain.length = 0 := by omega
      have h2 : (rest.map List.length).sum = 0 := by omega
      simp [List.eq_nil_of_length_eq_zero h1, ih h2]

/-- The enumeration loop of db_keys collects exactly the keys of every
entry, in order, and finishes with pos equal to the total chain length. -/
theorem keysLoop_eq (bs : List (List Entry)) (cnt : Nat) (pos : Nat) (acc : List (List Nat))
    (h : pos + (bs.map List.length).sum = cnt) :
    keysLoop bs cnt pos acc = (acc ++ (bs.map (List.map Entry.key)).flatten, cnt) := by
  induction bs generalizing pos acc with
  | nil =>
      simp only [List.map_nil, List.sum_nil, Nat.add_zero] at h
      simp [keysLoop, h]
  | cons chain rest ih =>
      by_cases hlt : pos < cnt
      · simp only [keysLoop, if_pos hlt]
        rw [ih (pos + chain.length) (acc ++ chain.map Entry.key)
          (by simp only [List.map_cons, List.sum_cons] at h; omega)]
        simp [List.append_assoc]
      · have hz : ((chain :: rest).map List.length).sum = 0 := by
          simp only [List.map_cons, List.sum_cons] at h ⊢
          omega
        have hpos : pos = cnt := by
          simp only [List.map_cons, List.sum_cons] at h hz
          omega
        simp only [keysLoop, if_neg hlt]
        rw [flatten_keys_nil _ hz]
        simp [hpos]

/-- C7: when the chains hold exactly count entries (the structural
invariant of a live table) and every stored key is unique table-wide, a
successful db_keys call returns precisely the sequence allKeys — one key
per entry, buckets in ascending index order, head-to-tail within each
bucket — of length exactly count and with no duplicates. -/
theorem claim7_keys (db : SimpleDB)
    (h4 : (db.buckets.map List.length).sum = db.count)
    (h5 : 0 < db.count)
    (hnd : (allKeys db).Nodup) :
    db_keysA db true = (some (allKeys db), db.count) ∧
    (allKeys db).length = db.count ∧
    (allKeys db).Nodup := by
  have hc : db.count ≠ 0 := Nat.pos_iff_ne_zero.mp h5
  have hl := keysLoop_eq db.buckets db.count 0 [] (by omega)
  refine ⟨?_, ?_, hnd⟩
  · rw [db_keysA, if_neg hc, if_pos rfl, hl]
    rfl
  · rw [allKeys, List.length_flatten, List.map_map]
    have hcomp : List.length ∘ List.map Entry.key = fun l : List Entry => l.length :=
      funext fun l => by simp
    rw [hcomp, h4]

/-- A reachable two-entry table. -/
def twoDB : SimpleDB := db_set oneDB [98] [50]

/-- Witness for C7 at a concrete input: a reachable two-entry table. -/
theorem claim7_witness :
    db_keysA twoDB true = (some (allKeys twoDB), twoDB.count) ∧
    (allKeys twoDB).length = twoDB.count ∧
    (allKeys twoDB).Nodup :=
  claim7_keys twoDB (by decide) (by decide) (by decide)

/-- C8 counterexample: the empty-table result of db_keys and its
allocation-failure result are the same observable pair (NULL array, out
count 0) — the two outcomes are not distinguishable, contrary to the
claim.  The code agrees with its own header (simple_db.h:74: returns NULL
if the database is empty or allocation fails). -/
theorem claim8_counterexample :
    db_create.count = 0 ∧ oneDB.count = 1 ∧
    db_keysA db_create true = (none, 0) ∧
    db_keysA oneDB false = (none, 0) :=
  ⟨rfl, by decide, by decide, by decide⟩

/-- C8 amended: on a zero-count table db_keys returns the empty result
(NULL array, out count 0) before attempting any allocation; this is the
same observable pair the call reports on allocation failure, so the empty
case is not distinguishable from the failure case by return values. -/
theorem claim8_empty_keys (db : SimpleDB) (ok : Bool) :
    (db.count = 0 → db_keysA db ok = (none, 0)) ∧
    db_keysA db false = (none, 0) := by
  constructor
  · intro h
    simp [db_keysA, h]
  · by_cases h : db.count = 0 <;> simp [db_keysA, h]

/-- Witness for the amended C8 at a concrete input: the fresh empty table. -/
theorem claim8_witness : db_keysA db_create true = (none, 0) :=
  (claim8_empty_keys db_create true).1 rfl

/-! ## Statistics -/

/-- Number of non-empty buckets, as the claim words it. -/
def usedBucketsSpec (bs : List (List Entry)) : Nat :=
  (bs.filter (fun c => !c.isEmpty)).length

/-- Total collisions, as the claim words it: the sum over every bucket of
max(chain length - 1, 0). -/
def totalCollisionsSpec (bs : List (List Entry)) : Nat :=
  (bs.map (fun c => max (c.length - 1) 0)).sum

/-- Maximum chain length over all buckets, as the claim words it. -/
def maxChainSpec (bs : List (List Entry)) : Nat :=
  (bs.map List.length).foldl max 0

/-- Folding max from an arbitrary seed. -/
theorem foldl_max_eq (l : List Nat) (a : Nat) : l.foldl max a = max a (l.foldl max 0) := by
  induction l generalizing a with
  | nil => simp
  | cons x xs ih =>
      rw [List.foldl_cons, List.foldl_cons, ih (max a x), ih (max 0 x)]
      simp [Nat.max_assoc]

/-- Every element is bounded by the max fold. -/
theorem le_foldl_max (l : List Nat) (x : Nat) (hx : x ∈ l) : x ≤ l.foldl max 0 := by
  induction l with
  | nil => simp at hx
  | cons y ys ih =>
      rw [List.foldl_cons, foldl_max_eq ys (max 0 y)]
      rcases List.mem_cons.mp hx with rfl | h
      · exact le_trans (le_max_right 0 x) (le_max_left _ _)
      · exact le_trans (ih h) (le_max_right _ _)

/-- The max fold of an all-zero list is zero. -/
theorem foldl_max_zero (l : List Nat) (h : ∀ x ∈ l, x = 0) : l.foldl max 0 = 0 := by
  induction l with
  | nil => rfl
  | cons y ys ih =>
      rw [List.foldl_cons, foldl_max_eq ys (max 0 y),
        h y (List.mem_cons_self y ys), ih (fun x hx => h x (List.mem_cons_of_mem y hx))]
      simp

/-- Closed form of one statistics step: the branches of statsStep compute
max(chain length - 1, 0), a running maximum, and a non-empty counter. -/
theorem statsStep_eq (s : DBStats) (chain : List Entry) :
    statsStep s chain =
      { total_entries := s.total_entries,
        total_collisions := s.total_collisions + max (chain.length - 1) 0,
        max_chain_length := max s.max_chain_length chain.length,
        used_buckets := s.used_buckets + (if chain.isEmpty then 0 else 1) } := by
  cases s with
  | mk te tc mc ub =>
      by_cases he : chain.isEmpty
      · have hlen : chain.length = 0 := by
          cases chain with
          | nil => rfl
          | cons a l => simp [List.isEmpty] at he
        simp [statsStep, he, hlen]
      · have htc : (if 1 < chain.length then chain.length - 1 else 0)
            = max (chain.length - 1) 0 := by
          rcases Nat.lt_or_ge 1 chain.length with h | h
          · rw [if_pos h, Nat.max_zero]
          · rw [if_neg (Nat.not_lt.mpr h), Nat.max_zero]
            omega
        have hmc : (if mc < chain.length then chain.length else mc) = max mc chain.length := by
          rcases Nat.lt_or_ge mc chain.length with h | h
          · rw [if_pos h]
            exact (Nat.max_eq_right (Nat.le_of_lt h)).symm
          · rw [if_neg (Nat.not_lt.mpr h)]
            exact (Nat.max_eq_left h).symm
        simp [statsStep, he, htc, hmc]

/-- Closed form of the statistics fold over a whole bucket array. -/
theorem db_stats_foldl (bs : List (List Entry)) (s : DBStats) :
    bs.foldl statsStep s =
      { total_entries := s.total_entries,
        total_collisions := s.total_collisions + totalCollisionsSpec bs,
        max_chain_length := max s.max_chain_length (maxChainSpec bs),
        used_buckets := s.used_buckets + usedBucketsSpec bs } := by
  induction bs generalizing s with
  | nil =>
      cases s with
      | mk te tc mc ub => simp [totalCollisionsSpec, maxChainSpec, usedBucketsSpec]
  | cons chain rest ih =>
      rw [List.foldl_cons, statsStep_eq, ih]
      have hmc : maxChainSpec (chain :: rest) = max chain.length (maxChainSpec rest) := by
        simp only [maxChainSpec, List.map_cons, List.foldl_cons]
        rw [foldl_max_eq, Nat.zero_max]
      have htc : totalCollisionsSpec (chain :: rest)
          = max (chain.length - 1) 0 + totalCollisionsSpec rest := by
        simp only [totalCollisionsSpec, List.map_cons, List.sum_cons]
      have hub : usedBucketsSpec (chain :: rest)
          = (if chain.isEmpty then 0 else 1) + usedBucketsSpec rest := by
        rw [usedBucketsSpec, List.filter_cons]
        by_cases he : chain.isEmpty
        · simp [he, usedBucketsSpec]
        · simp [he, usedBucketsSpec]
          omega
      rw [hmc, htc, hub]
      simp [Nat.max_assoc, Nat.add_assoc]

/-- C9: db_stats returns total_entries equal to the stored count,
used_buckets equal to the number of non-empty buckets (at most the
capacity), total_collisions equal to the sum over buckets of
max(chain length - 1, 0), and max_chain_length equal to the maximum chain
length, which is at least 1 whenever count is positive and 0 for an empty
table; as a pure function of the table value it mutates nothing. -/
theorem claim9_stats (db : SimpleDB)
    (h1 : db.buckets.length = db.capacity)
    (h4 : (db.buckets.map List.length).sum = db.count) :
    db_stats db =
      { total_entries := db.count,
        total_collisions := totalCollisionsSpec db.buckets,
        max_chain_length := maxChainSpec db.buckets,
        used_buckets := usedBucketsSpec db.buckets } ∧
    usedBucketsSpec db.buckets ≤ db.capacity ∧
    (0 < db.count → 1 ≤ maxChainSpec db.buckets) ∧
    (db.count = 0 → maxChainSpec db.buckets = 0) := by
  refine ⟨?_, ?_, ?_, ?_⟩
  · rw [db_stats, db_stats_foldl]
    simp
  · rw [← h1]
    exact List.length_filter_le _ _
  · intro hpos
    rcases Nat.lt_or_ge (maxChainSpec db.buckets) 1 with hm | hm
    · exfalso
      have hz : ∀ x ∈ db.buckets.map List.length, x = 0 := fun x hx =>
        Nat.lt_one_iff.mp (lt_of_le_of_lt (le_foldl_max _ x hx) hm)
      have hc0 : db.count = 0 := by
        rw [← h4]
        exact List.sum_eq_zero_iff.mpr hz
      omega
    · exact hm
  · intro hc0
    have hz : ∀ x ∈ db.buckets.map List.length, x = 0 := by
      rw [← List.sum_eq_zero_iff]
      rw [h4]
      exact hc0
    exact foldl_max_zero _ hz

/-- Witness for C9 at a concrete input: the reachable two-entry table. -/
theorem claim9_witness :
    db_stats twoDB =
      { total_entries := twoDB.count,
        total_collisions := totalCollisionsSpec twoDB.buckets,
        max_chain_length := maxChainSpec twoDB.buckets,
        used_buckets := usedBucketsSpec twoDB.buckets } ∧
    usedBucketsSpec twoDB.buckets ≤ twoDB.capacity ∧
    1 ≤ maxChainSpec twoDB.buckets := by
  have h := claim9_stats twoDB (by decide) (by decide)
  exact ⟨h.1, h.2.1, h.2.2.1 (by decide)⟩

/-- C10: the empty string is a valid key at the public interface: its
FNV-1a hash is the offset basis 14695981039346656037 because the byte loop
runs zero times, and setting the empty key behaves like any other
insert/update — an immediately following lookup of the empty key returns
the value just stored, and the key is reported present. -/
theorem claim10_empty_key (db : SimpleDB) (v : List Nat)
    (h1 : db.buckets.length = db.capacity) (h2 : 0 < db.capacity) :
    fnv1a [] = 14695981039346656037 ∧
    db_get (db_set db [] v) [] = some v ∧
    db_exists (db_set db [] v) [] = true := by
  have hg : db_get (db_set db [] v) [] = some v := by
    rw [db_set_eq]
    by_cases ht : loadTrigger db
    · rw [if_pos ht]
      obtain ⟨hlen, hcap, _⟩ := rehashF_shape db (db.capacity * 2)
      exact db_get_insertStep _ [] v (by rw [hlen, hcap])
        (by rw [hcap]; exact Nat.mul_pos h2 (by norm_num))
    · rw [if_neg ht]
      exact db_get_insertStep db [] v h1 h2
  exact ⟨rfl, hg, by simp [db_exists, hg]⟩

/-- Witness for C10 at a concrete input: the fresh table and value "1". -/
theorem claim10_witness :
    fnv1a [] = 14695981039346656037 ∧
    db_get (db_set db_create [] [49]) [] = some [49] ∧
    db_exists (db_set db_create [] [49]) [] = true :=
  claim10_empty_key db_create [49] rfl (by decide)
